import Mathlib

/-!
Shallow embedding of the monitoring-state engine of `deadman-webui.py`.

Python floats (latency values, wall-clock instants) are modelled as
rationals (`ℚ`); the claims under study only involve exact equality
comparisons and linear arithmetic on these values, never rounding.
Sequence counts are modelled as integers (`ℤ`, Python `int`).
`datetime` instants are modelled as rationals measured in seconds, so
`timedelta(seconds=5)` becomes the literal `5`.

The `collections.deque(maxlen=600)` of `HostMonitor.history` is modelled
as a `List` with explicit front-eviction on append.
-/

/-- One element of `HostMonitor.history`: the dict
`{'timestamp': …, 'current': …, 'average': …, 'sequence': …, 'is_loss': …}`
built in `HostMonitor.add_measurement`. -/
structure Entry where
  timestamp : ℚ
  current : ℚ
  average : ℚ
  sequence : ℤ
  is_loss : Bool
deriving DecidableEq, Repr

/-- The mutable state of `HostMonitor.__init__`. -/
structure HostMonitor where
  name : String
  address : String
  history : List Entry
  last_current : ℚ
  last_average : ℚ
  last_sequence : ℤ
  last_update : Option ℚ
  prev_current : Option ℚ
  prev_average : Option ℚ
deriving DecidableEq, Repr

/-- `HostMonitor.__init__(name, address)`: empty history, zero last values,
`last_update = prev_current = prev_average = None`. -/
def initMonitor (name address : String) : HostMonitor :=
  { name := name
    address := address
    history := []
    last_current := 0
    last_average := 0
    last_sequence := 0
    last_update := none
    prev_current := none
    prev_average := none }

/-- The loss check of `HostMonitor.add_measurement`:
`(current == 0) or (prev_current is not None and prev_average is not None
and current == prev_current and average == prev_average and current > 0)`. -/
def lossFlag (m : HostMonitor) (current average : ℚ) : Bool :=
  decide (current = 0) ||
    (match m.prev_current, m.prev_average with
     | some pc, some pa =>
         decide (current = pc) && decide (average = pa) && decide (0 < current)
     | _, _ => false)

/-- Appending to a `deque(maxlen=n)`: the new element goes to the back and,
if the buffer would exceed `n`, elements are silently dropped from the
front. -/
def dequeAppend (n : Nat) (xs : List Entry) (e : Entry) : List Entry :=
  let ys := xs ++ [e]
  if n < ys.length then ys.drop (ys.length - n) else ys

/-- `HostMonitor.add_measurement(current, average, sequence, timestamp)`. -/
def add_measurement (m : HostMonitor) (current average : ℚ) (sequence : ℤ)
    (timestamp : ℚ) : HostMonitor :=
  { m with
    history := dequeAppend 600 m.history
      { timestamp := timestamp
        current := current
        average := average
        sequence := sequence
        is_loss := lossFlag m current average }
    prev_current := some current
    prev_average := some average
    last_current := current
    last_average := average
    last_sequence := sequence
    last_update := some timestamp }

/-- `HostMonitor.get_loss_rate`: `0.0` on an empty history, otherwise
`(lost / total) * 100.0` where `lost` counts entries with `is_loss`. -/
def get_loss_rate (m : HostMonitor) : ℚ :=
  if m.history.isEmpty then 0
  else ((m.history.countP (fun h => h.is_loss) : ℚ) / (m.history.length : ℚ)) * 100

/-- Python slicing `xs[i:]` for an arbitrary integer start index `i`
(negative indices count from the end, out-of-range indices clamp). -/
def pySliceFrom (xs : List Entry) (i : ℤ) : List Entry :=
  if 0 ≤ i then xs.drop i.toNat
  else xs.drop (xs.length - (-i).toNat)

/-- `HostMonitor.get_sparkline_data(time_range)`: the whole history when
`time_range >= len(history)`, else `list(history)[-time_range:]`. -/
def get_sparkline_data (m : HostMonitor) (time_range : ℤ) : List Entry :=
  if (m.history.length : ℤ) ≤ time_range then m.history
  else pySliceFrom m.history (-time_range)

/-- `HostMonitor.is_online`: `last_current > 0`. -/
def is_online (m : HostMonitor) : Bool :=
  decide (0 < m.last_current)

/-- `HostMonitor.get_status_class(now)`: `'unknown'` when `last_update` is
`None`, `'stale'` when `now - last_update > 5` seconds, else `'up'` /
`'down'` by `is_online`. -/
def get_status_class (m : HostMonitor) (now : ℚ) : String :=
  match m.last_update with
  | none => "unknown"
  | some t =>
      if 5 < now - t then "stale"
      else if is_online m then "up" else "down"

/-- One parsed log record, as produced inside `LogParser.parse_log_file`:
`{'timestamp': …, 'current': …, 'average': …, 'count': …, 'is_loss': current == 0}`. -/
structure Record where
  timestamp : ℚ
  current : ℚ
  average : ℚ
  count : ℤ
  is_loss : Bool
deriving DecidableEq, Repr

/-- One iteration of the append loop of `LogParser.update_monitor`:
`monitor.add_measurement(entry['current'], entry['average'], entry['count'],
entry['timestamp'])`. -/
def applyRecord (m : HostMonitor) (r : Record) : HostMonitor :=
  add_measurement m r.current r.average r.count r.timestamp

/-- The whole append loop of `LogParser.update_monitor`: feed every parsed
record, in order, through `add_measurement`. -/
def update_monitor (m : HostMonitor) (entries : List Record) : HostMonitor :=
  entries.foldl applyRecord m

/-- The per-line body of `LogParser.parse_log_file`, for one
whitespace-split line. The external parsers `datetime.fromisoformat`,
`float` and `int` are abstracted as `Option`-valued functions (`none`
models the `ValueError` they may raise); the access `parts[4]` under the
guard `len(parts) >= 4` raises `IndexError` when the line has exactly four
fields, modelled by `parts.get? 4 = none`. Any such failure is caught by
`except (ValueError, IndexError): continue`, i.e. yields `none`. -/
def parse_line (pt pf : String → Option ℚ) (pz : String → Option ℤ)
    (parts : List String) : Option Record :=
  if 4 ≤ parts.length then
    match pt (parts.getD 0 "" ++ " " ++ parts.getD 1 ""),
          pf (parts.getD 2 ""), pf (parts.getD 3 ""), parts.get? 4 with
    | some ts, some cur, some avg, some p4 =>
        match pz p4 with
        | some cnt =>
            some { timestamp := ts, current := cur, average := avg,
                   count := cnt, is_loss := decide (cur = 0) }
        | none => none
    | _, _, _, _ => none
  else none

/-- The batch loop of `LogParser.parse_log_file`: each (already split)
line contributes its parsed record, malformed lines are skipped via
`continue`. -/
def parse_log_file (pt pf : String → Option ℚ) (pz : String → Option ℤ)
    (lines : List (List String)) : List Record :=
  lines.filterMap (parse_line pt pf pz)

/-- The ordering logic of `api_monitors`: with a non-empty config order,
first the configured names that have a monitor, in config order, then the
monitors whose name is not configured, in dict (first-seen) order;
without a config order, plain dict order. `monitors` is the key list of
`log_parser.monitors` in insertion order. -/
def api_monitor_names (target_order : List String) (monitors : List String) :
    List String :=
  if target_order ≠ [] then
    target_order.filter (fun n => decide (n ∈ monitors)) ++
      monitors.filter (fun n => decide (n ∉ target_order))
  else monitors

/-- Projection of a history entry to its ingested fields (everything but
the derived `is_loss`). -/
def coreOf (e : Entry) : ℚ × ℚ × ℚ × ℤ :=
  (e.timestamp, e.current, e.average, e.sequence)

/-- Projection of a parsed record to the fields that `add_measurement`
stores. -/
def recCore (r : Record) : ℚ × ℚ × ℚ × ℤ :=
  (r.timestamp, r.current, r.average, r.count)

/-- The loss rule as the spec states it, in order: rule 1 (`current == 0`),
rule 2 (previous sample present, both values repeated, `current > 0`),
rule 3 (otherwise no loss). -/
def specLoss (pc pa : Option ℚ) (current average : ℚ) : Bool :=
  if current = 0 then true
  else
    match pc, pa with
    | some x, some y =>
        if current = x ∧ average = y ∧ 0 < current then true else false
    | _, _ => false

/-- The entry that `add_measurement` appends for the given arguments. -/
def mkEntry (m : HostMonitor) (c a : ℚ) (s : ℤ) (t : ℚ) : Entry :=
  { timestamp := t
    current := c
    average := a
    sequence := s
    is_loss := lossFlag m c a }

lemma lossFlag_eq_specLoss (m : HostMonitor) (c a : ℚ) :
    lossFlag m c a = specLoss m.prev_current m.prev_average c a := by
  unfold lossFlag specLoss
  rcases m.prev_current with _ | pc <;> rcases m.prev_average with _ | pa <;>
    by_cases hc : c = 0 <;> simp [hc] <;>
    by_cases h1 : c = pc <;> by_cases h2 : a = pa <;> by_cases h3 : 0 < c <;>
      simp [h1, h2, h3]

lemma dequeAppend_eq (n : Nat) (xs : List Entry) (e : Entry) :
    dequeAppend n xs e = (xs ++ [e]).drop ((xs.length + 1) - n) := by
  simp only [dequeAppend, List.length_append, List.length_singleton]
  split
  · rfl
  · next h =>
    have h0 : xs.length + 1 - n = 0 := by omega
    rw [h0, List.drop_zero]

lemma add_history (m : HostMonitor) (c a : ℚ) (s : ℤ) (t : ℚ) :
    (add_measurement m c a s t).history =
      (m.history ++ [mkEntry m c a s t]).drop
        ((m.history.length + 1) - 600) := by
  simp [add_measurement, mkEntry, dequeAppend_eq]

lemma add_history_length (m : HostMonitor) (c a : ℚ) (s : ℤ) (t : ℚ) :
    (add_measurement m c a s t).history.length =
      min (m.history.length + 1) 600 := by
  rw [add_history]
  simp only [List.length_drop, List.length_append, List.length_singleton]
  omega

lemma add_getLast (m : HostMonitor) (c a : ℚ) (s : ℤ) (t : ℚ) :
    (add_measurement m c a s t).history.getLast? =
      some (mkEntry m c a s t) := by
  rw [add_history, List.drop_append_of_le_length (by omega),
    List.getLast?_concat]

lemma drop_append_assoc {α : Type} (xs ys : List α) (a b : Nat)
    (h : a ≤ xs.length) :
    (xs.drop a ++ ys).drop b = (xs ++ ys).drop (a + b) := by
  rw [← List.drop_append_of_le_length h]
  exact List.drop_drop b a (xs ++ ys)

lemma update_monitor_map_core (rs : List Record) :
    ∀ m : HostMonitor, m.history.length ≤ 600 →
      (update_monitor m rs).history.map coreOf =
        ((m.history.map coreOf) ++ rs.map recCore).drop
          ((m.history.length + rs.length) - 600) := by
  induction rs with
  | nil =>
      intro m hm
      have h0 : m.history.length + ([] : List Record).length - 600 = 0 := by
        simp only [List.length_nil]
        omega
      rw [h0]
      simp [update_monitor]
  | cons r rs ih =>
      intro m hm
      have hlen : (applyRecord m r).history.length =
          min (m.history.length + 1) 600 :=
        add_history_length m r.current r.average r.count r.timestamp
      have h' : (applyRecord m r).history.length ≤ 600 := by omega
      have hmap : (applyRecord m r).history.map coreOf =
          (m.history.map coreOf ++ [recCore r]).drop
            ((m.history.length + 1) - 600) := by
        show (add_measurement m r.current r.average r.count
            r.timestamp).history.map coreOf = _
        rw [add_history, List.map_drop, List.map_append]
        simp [coreOf, recCore, mkEntry]
      have step : update_monitor m (r :: rs) =
          update_monitor (applyRecord m r) rs := rfl
      rw [step, ih _ h', hmap,
        drop_append_assoc _ _ _ _ (by
          simp only [List.length_append, List.length_map,
            List.length_singleton]
          omega)]
      rw [hlen]
      have harith : m.history.length + 1 - 600 +
          (min (m.history.length + 1) 600 + rs.length - 600) =
          m.history.length + (r :: rs).length - 600 := by
        simp only [List.length_cons]
        omega
      rw [harith]
      simp [List.append_assoc]

lemma update_monitor_length (rs : List Record) (m : HostMonitor)
    (hm : m.history.length ≤ 600) :
    (update_monitor m rs).history.length =
      min (m.history.length + rs.length) 600 := by
  have h := congrArg List.length (update_monitor_map_core rs m hm)
  simp only [List.length_map, List.length_drop, List.length_append] at h
  omega

/-- C1: the `is_loss` of every appended entry follows exactly the spec's
ordered rules (zero reading, repeated non-zero reading, otherwise no
loss); the append sequence (5,5), (5,5), (6,6) yields loss flags
[false, true, false]; and any append with `current = 0` is a loss
regardless of prior state. -/
theorem loss_rule_correct :
    (∀ (m : HostMonitor) (c a : ℚ) (s : ℤ) (t : ℚ),
        ((add_measurement m c a s t).history.getLast?).map
            (fun e => e.is_loss) =
          some (specLoss m.prev_current m.prev_average c a))
    ∧ ((update_monitor (initMonitor "h" "a")
          [⟨0, 5, 5, 1, false⟩, ⟨0, 5, 5, 2, false⟩,
           ⟨0, 6, 6, 3, false⟩]).history.map (fun e => e.is_loss) =
        [false, true, false])
    ∧ (∀ (m : HostMonitor) (a : ℚ) (s : ℤ) (t : ℚ),
        ((add_measurement m 0 a s t).history.getLast?).map
            (fun e => e.is_loss) = some true) := by
  refine ⟨?_, by decide, ?_⟩
  · intro m c a s t
    rw [add_getLast]
    simp only [Option.map_some', mkEntry]
    exact congrArg some (lossFlag_eq_specLoss m c a)
  · intro m a s t
    rw [add_getLast]
    simp [mkEntry, lossFlag]

/-- The 601 sequential inputs of the overflow scenario: sequence numbers
1..601, all with `current = 1.0`. -/
def seqInputs601 : List Record :=
  (List.range 601).map
    (fun (i : ℕ) => (⟨0, 1, 1, (i : ℤ) + 1, false⟩ : Record))

/-- A sample history entry used to build concrete monitors. -/
def e0 : Entry :=
  { timestamp := 0, current := 1, average := 1, sequence := 0,
    is_loss := false }

/-- A monitor whose history is exactly at the 600-entry capacity. -/
def mon600 : HostMonitor :=
  { name := "h"
    address := "a"
    history := List.replicate 600 e0
    last_current := 0
    last_average := 0
    last_sequence := 0
    last_update := none
    prev_current := none
    prev_average := none }

/-- C2: the history never exceeds 600 entries for any finite sequence of
appends; an append at capacity silently drops the oldest entry; after 601
appends with sequence numbers 1..601 the history holds exactly the 600
entries with sequence numbers 2..601 in order. -/
theorem history_bounded :
    (∀ (n a : String) (rs : List Record),
        (update_monitor (initMonitor n a) rs).history.length ≤ 600)
    ∧ (∀ (m : HostMonitor) (c av : ℚ) (s : ℤ) (t : ℚ),
        m.history.length = 600 →
        (add_measurement m c av s t).history =
          m.history.tail ++ [mkEntry m c av s t])
    ∧ ((update_monitor (initMonitor "host" "addr")
          seqInputs601).history.length = 600
       ∧ (update_monitor (initMonitor "host" "addr")
            seqInputs601).history.map (fun e => e.sequence) =
          (List.range 600).map (fun (i : ℕ) => (i : ℤ) + 2)) := by
  refine ⟨?_, ?_, ?_, ?_⟩
  · intro n a rs
    have h := update_monitor_length rs (initMonitor n a) (by simp [initMonitor])
    omega
  · intro m c av s t h
    rw [add_history, h]
    have h1 : 600 + 1 - 600 = 1 := by norm_num
    rw [h1, List.drop_append_of_le_length (by omega), List.drop_one]
  · have h := update_monitor_length seqInputs601 (initMonitor "host" "addr")
      (by simp [initMonitor])
    have h601 : seqInputs601.length = 601 := by simp [seqInputs601]
    rw [h601] at h
    rw [h]
    simp only [initMonitor, List.length_nil]
    decide
  · have hcore := update_monitor_map_core seqInputs601
      (initMonitor "host" "addr") (by simp [initMonitor])
    have h601 : seqInputs601.length = 601 := by simp [seqInputs601]
    have hmm : (update_monitor (initMonitor "host" "addr")
        seqInputs601).history.map (fun e => e.sequence) =
        ((update_monitor (initMonitor "host" "addr")
          seqInputs601).history.map coreOf).map (fun p => p.2.2.2) := by
      rw [List.map_map]
      refine List.map_congr_left ?_
      intro e he
      rfl
    rw [hmm, hcore]
    simp only [initMonitor, List.map_nil, List.nil_append, List.length_nil,
      Nat.zero_add, h601]
    have hidx : 601 - 600 = 1 := by norm_num
    rw [hidx, List.map_drop, List.map_map]
    have hseq : List.map ((fun p => p.2.2.2) ∘ recCore) seqInputs601 =
        (List.range 601).map (fun (i : ℕ) => (i : ℤ) + 1) := by
      simp only [seqInputs601, List.map_map]
      refine List.map_congr_left ?_
      intro i hi
      rfl
    rw [hseq, List.range_succ_eq_map, List.map_cons, List.drop_one,
      List.tail_cons, List.map_map]
    refine List.map_congr_left ?_
    intro i hi
    show ((Nat.succ i : ℕ) : ℤ) + 1 = (i : ℤ) + 2
    push_cast
    ring

/-- Witness for C2: a monitor at capacity satisfies the eviction
conclusion. -/
theorem history_bounded_witness :
    mon600.history.length = 600 ∧
    (add_measurement mon600 1 2 3 4).history =
      mon600.history.tail ++ [mkEntry mon600 1 2 3 4] :=
  ⟨by simp only [mon600, List.length_replicate],
   history_bounded.2.1 mon600 1 2 3 4
     (by simp only [mon600, List.length_replicate])⟩

/-- C3: status is `unknown` on a never-updated monitor; after any
non-empty run of appends it is `stale` when more than 5 seconds have
passed since the last append, else `up`/`down` by the sign of the last
current value; and it is always one of the four values. -/
theorem status_classification :
    (∀ (n a : String) (now : ℚ),
        get_status_class (initMonitor n a) now = "unknown")
    ∧ (∀ (m : HostMonitor) (l : List Record) (q : Record) (now : ℚ),
        get_status_class (update_monitor m (l ++ [q])) now =
          if 5 < now - q.timestamp then "stale"
          else if 0 < q.current then "up" else "down")
    ∧ (∀ (m : HostMonitor) (now : ℚ),
        get_status_class m now = "unknown" ∨
        get_status_class m now = "stale" ∨
        get_status_class m now = "up" ∨
        get_status_class m now = "down") := by
  refine ⟨?_, ?_, ?_⟩
  · intro n a now
    rfl
  · intro m l q now
    have hstep : update_monitor m (l ++ [q]) =
        applyRecord (update_monitor m l) q := by
      simp [update_monitor, List.foldl_append]
    rw [hstep]
    simp [applyRecord, add_measurement, get_status_class, is_online]
  · intro m now
    unfold get_status_class
    rcases m.last_update with _ | t
    · left
      rfl
    · by_cases h1 : 5 < now - t
      · right
        left
        simp [h1]
      · by_cases h2 : is_online m
        · right
          right
          left
          simp [h1, h2]
        · right
          right
          right
          simp [h1, h2]

/-- C4: with a non-empty history the loss rate is exactly
100 × (loss count) / (entry count), a value in [0, 100]; with an empty
history it is exactly 0. -/
theorem loss_rate_correct :
    (∀ m : HostMonitor, m.history ≠ [] →
        get_loss_rate m =
          100 * ((m.history.countP (fun h => h.is_loss) : ℚ) /
            (m.history.length : ℚ)) ∧
        0 ≤ get_loss_rate m ∧ get_loss_rate m ≤ 100)
    ∧ (∀ m : HostMonitor, m.history = [] → get_loss_rate m = 0) := by
  constructor
  · intro m hm
    have hne : ¬ m.history.isEmpty := by
      simpa [List.isEmpty_iff] using hm
    have hpos : 0 < m.history.length := List.length_pos.mpr hm
    have hT : (0 : ℚ) < (m.history.length : ℚ) := by exact_mod_cast hpos
    have hLT : ((m.history.countP (fun h => h.is_loss) : ℚ)) ≤
        ((m.history.length : ℚ)) := by
      exact_mod_cast List.countP_le_length (fun h : Entry => h.is_loss)
    have hL0 : (0 : ℚ) ≤ (m.history.countP (fun h => h.is_loss) : ℚ) := by
      positivity
    have hdiv1 : (m.history.countP (fun h => h.is_loss) : ℚ) /
        (m.history.length : ℚ) ≤ 1 := (div_le_one hT).mpr hLT
    have hdiv0 : (0 : ℚ) ≤ (m.history.countP (fun h => h.is_loss) : ℚ) /
        (m.history.length : ℚ) := by positivity
    unfold get_loss_rate
    rw [if_neg hne]
    refine ⟨by ring, by nlinarith, by nlinarith⟩
  · intro m hm
    simp [get_loss_rate, hm]

/-- A monitor holding exactly one appended measurement. -/
def oneMon : HostMonitor := add_measurement (initMonitor "h" "a") 1 2 3 4

/-- A monitor holding exactly two appended measurements. -/
def twoMon : HostMonitor := add_measurement oneMon 2 3 4 5

/-- Witness for C4: the loss-rate formula and bounds hold on a concrete
non-empty monitor. -/
theorem loss_rate_correct_witness :
    oneMon.history ≠ [] ∧
    (get_loss_rate oneMon =
        100 * ((oneMon.history.countP (fun h => h.is_loss) : ℚ) /
          (oneMon.history.length : ℚ)) ∧
      0 ≤ get_loss_rate oneMon ∧ get_loss_rate oneMon ≤ 100) :=
  ⟨by decide, loss_rate_correct.1 oneMon (by decide)⟩

/-- C6: every append unconditionally updates the six derived fields to
mirror the appended record, regardless of the computed loss flag. -/
theorem append_side_effects : ∀ (m : HostMonitor) (c a : ℚ) (s : ℤ)
    (t : ℚ),
    (add_measurement m c a s t).last_current = c ∧
    (add_measurement m c a s t).last_average = a ∧
    (add_measurement m c a s t).last_sequence = s ∧
    (add_measurement m c a s t).last_update = some t ∧
    (add_measurement m c a s t).prev_current = some c ∧
    (add_measurement m c a s t).prev_average = some a := by
  intro m c a s t
  exact ⟨rfl, rfl, rfl, rfl, rfl, rfl⟩

/-- The most recent `n` entries of a history, oldest first. -/
def mostRecent (xs : List Entry) (n : Nat) : List Entry :=
  xs.drop (xs.length - n)

/-- The sparkline contract as the spec words it: the most recent
`min(window_size, history length)` entries, oldest first. -/
def specSparkline (xs : List Entry) (w : ℤ) : List Entry :=
  mostRecent xs (min w.toNat xs.length)

/-- C5 counterexample: on a one-entry history, `sparkline(0)` returns the
whole history, while the claim's `min(window_size, history length)` rule
demands the empty sequence. -/
theorem sparkline_claim_ctex :
    get_sparkline_data oneMon 0 ≠ specSparkline oneMon.history 0 := by
  decide

/-- C5 (amended): for every window size of at least 1, the sparkline is
exactly the most recent `min(window_size, history length)` entries of the
history, oldest first, as stored. -/
theorem sparkline_most_recent (m : HostMonitor) (w : ℤ) (hw : 1 ≤ w) :
    get_sparkline_data m w = specSparkline m.history w := by
  unfold get_sparkline_data specSparkline mostRecent pySliceFrom
  by_cases h : (m.history.length : ℤ) ≤ w
  · rw [if_pos h]
    have hmin : min w.toNat m.history.length = m.history.length := by omega
    rw [hmin]
    simp
  · rw [if_neg h]
    have hneg : ¬ (0 ≤ -w) := by omega
    rw [if_neg hneg]
    have h1 : (-(-w)).toNat = w.toNat := by omega
    have h2 : min w.toNat m.history.length = w.toNat := by omega
    rw [h1, h2]

/-- Witness for C5 (amended): the contract holds at window size 1 on a
concrete monitor. -/
theorem sparkline_most_recent_witness :
    (1 : ℤ) ≤ 1 ∧
    get_sparkline_data oneMon 1 = specSparkline oneMon.history 1 :=
  ⟨by decide, sparkline_most_recent oneMon 1 (by decide)⟩

/-- C10: `sparkline(0)` on a non-empty history returns the entire history
(not the empty sequence), and a negative window whose magnitude is below
the history length returns all but the first that-many entries. -/
theorem sparkline_zero_negative :
    (∀ m : HostMonitor, m.history ≠ [] →
        get_sparkline_data m 0 = m.history ∧
        (get_sparkline_data m 0).length = m.history.length)
    ∧ (∀ (m : HostMonitor) (w : ℤ), w < 0 →
        (-w).toNat < m.history.length →
        get_sparkline_data m w = m.history.drop (-w).toNat) := by
  constructor
  · intro m hm
    have hpos : 0 < m.history.length := List.length_pos.mpr hm
    have hfull : get_sparkline_data m 0 = m.history := by
      unfold get_sparkline_data pySliceFrom
      rw [if_neg (by omega), if_pos (by omega)]
      simp
    exact ⟨hfull, by rw [hfull]⟩
  · intro m w hw hlt
    unfold get_sparkline_data pySliceFrom
    rw [if_neg (by omega), if_pos (by omega)]

/-- Witness for C10: both behaviours hold at concrete inputs (a one-entry
monitor with window 0, a two-entry monitor with window -1). -/
theorem sparkline_zero_negative_witness :
    (oneMon.history ≠ [] ∧
      (get_sparkline_data oneMon 0 = oneMon.history ∧
        (get_sparkline_data oneMon 0).length = oneMon.history.length)) ∧
    (((-1 : ℤ) < 0 ∧ (-(-1 : ℤ)).toNat < twoMon.history.length) ∧
      get_sparkline_data twoMon (-1) =
        twoMon.history.drop (-(-1 : ℤ)).toNat) :=
  ⟨⟨by decide, sparkline_zero_negative.1 oneMon (by decide)⟩,
   ⟨⟨by decide, by decide⟩,
    sparkline_zero_negative.2 twoMon (-1) (by decide) (by decide)⟩⟩

/-- The ordering contract as the spec words it: configured identifiers
that have a window, in configuration order, then windows outside the
configuration, in first-seen order. -/
def specOrdered (target_order monitors : List String) : List String :=
  target_order.filter (fun n => decide (n ∈ monitors)) ++
    monitors.filter (fun n => decide (n ∉ target_order))

/-- C7: the presentation ordering equals the spec contract, and only
identifiers that have a Host Window ever appear. -/
theorem ordering_correct :
    ∀ target_order monitors : List String,
      api_monitor_names target_order monitors =
        specOrdered target_order monitors ∧
      (api_monitor_names target_order monitors).all
        (fun n => decide (n ∈ monitors)) = true := by
  intro t mo
  constructor
  · unfold api_monitor_names specOrdered
    by_cases h : t = []
    · subst h
      simp
    · rw [if_pos h]
  · unfold api_monitor_names
    by_cases h : t = []
    · subst h
      simp only [ne_eq, not_true_eq_false, if_false, List.all_eq_true,
        decide_eq_true_eq]
      intro x hx
      exact hx
    · rw [if_pos h]
      simp only [List.all_eq_true, List.mem_append, List.mem_filter,
        decide_eq_true_eq]
      intro x hx
      rcases hx with hx | hx
      · exact hx.2
      · exact hx.1

/-- C8: refreshing a fresh window twice with the same k records performs
all 2k appends with no deduplication: the surviving history is exactly the
tail of the doubled record list under the 600-entry cap, and its length is
min(2k, 600). -/
theorem refresh_no_dedup :
    ∀ (n a : String) (rs : List Record),
      (update_monitor (update_monitor (initMonitor n a) rs) rs).history.length
          = min (2 * rs.length) 600 ∧
      (update_monitor (update_monitor (initMonitor n a) rs) rs).history.map
          coreOf =
        ((rs ++ rs).map recCore).drop (2 * rs.length - 600) := by
  intro n a rs
  have h0 : (initMonitor n a).history.length ≤ 600 := by simp [initMonitor]
  have h1len := update_monitor_length rs (initMonitor n a) h0
  have h1le : (update_monitor (initMonitor n a) rs).history.length ≤ 600 := by
    omega
  constructor
  · have h2len := update_monitor_length rs _ h1le
    rw [h1len] at h2len
    rw [h2len]
    simp only [initMonitor, List.length_nil]
    omega
  · have hc1 := update_monitor_map_core rs (initMonitor n a) h0
    have hc2 := update_monitor_map_core rs _ h1le
    rw [hc2, hc1, h1len]
    simp only [initMonitor, List.map_nil, List.nil_append, List.length_nil,
      Nat.zero_add]
    rw [drop_append_assoc _ _ _ _ (by
      rw [List.length_map]
      omega)]
    rw [List.map_append]
    have hidx : rs.length - 600 + (min rs.length 600 + rs.length - 600) =
        2 * rs.length - 600 := by omega
    rw [hidx]

/-- C9: a malformed line (any parse failure, including too few fields)
contributes no record and does not disturb the parsing of the lines
around it; any line with at most four whitespace-separated fields is
malformed. -/
theorem malformed_skipped :
    (∀ (pt pf : String → Option ℚ) (pz : String → Option ℤ)
        (pre post : List (List String)) (bad : List String),
        parse_line pt pf pz bad = none →
        parse_log_file pt pf pz (pre ++ bad :: post) =
          parse_log_file pt pf pz pre ++ parse_log_file pt pf pz post)
    ∧ (∀ (pt pf : String → Option ℚ) (pz : String → Option ℤ)
        (parts : List String), parts.length ≤ 4 →
        parse_line pt pf pz parts = none) := by
  constructor
  · intro pt pf pz pre post bad hbad
    simp [parse_log_file, List.filterMap_append, List.filterMap_cons, hbad]
  · intro pt pf pz parts hlen
    unfold parse_line
    by_cases h4 : 4 ≤ parts.length
    · rw [if_pos h4]
      have hget : parts.get? 4 = none := List.get?_eq_none.mpr (by omega)
      rw [hget]
      rcases pt (parts.getD 0 "" ++ " " ++ parts.getD 1 "") with _ | x
      · rcases pf (parts.getD 2 "") with _ | y
        · rcases pf (parts.getD 3 "") with _ | z
          · rfl
          · rfl
        · rcases pf (parts.getD 3 "") with _ | z
          · rfl
          · rfl
      · rcases pf (parts.getD 2 "") with _ | y
        · rcases pf (parts.getD 3 "") with _ | z
          · rfl
          · rfl
        · rcases pf (parts.getD 3 "") with _ | z
          · rfl
          · rfl
    · rw [if_neg h4]

/-- Constant successful rational parser, for concrete instantiation. -/
def pq0 : String → Option ℚ := fun _ => some 0

/-- Constant successful integer parser, for concrete instantiation. -/
def pz0 : String → Option ℤ := fun _ => some 0

/-- Witness for C9: a one-field line is malformed, is skipped, and leaves
the rest of the batch intact, at concrete inputs. -/
theorem malformed_skipped_witness :
    (parse_line pq0 pq0 pz0 ["x"] = none ∧
      parse_log_file pq0 pq0 pz0 ([] ++ ["x"] :: []) =
        parse_log_file pq0 pq0 pz0 [] ++ parse_log_file pq0 pq0 pz0 []) ∧
    ((["x"] : List String).length ≤ 4 ∧
      parse_line pq0 pq0 pz0 ["x"] = none) :=
  ⟨⟨rfl, malformed_skipped.1 pq0 pq0 pz0 [] [] ["x"] rfl⟩,
   ⟨by decide, malformed_skipped.2 pq0 pq0 pz0 ["x"] (by decide)⟩⟩
